import Mathlib

/-!
Verification of the snapshot caching and refresh-decision engine of
`scr_miners/process_manager.py`.

Python process records are dictionaries whose keys vary with the backend
that produced them, so a record is embedded as a structure whose
non-identity fields are `Option`s: `none` models an absent key.  The
cache (`collections.OrderedDict`) is embedded as an insertion-ordered
association list with unique keys.  `time.time()` values are rationals.
-/

/-- One process record (a Python dict).  `pid` is always present; every
other field is `Option` because the two enumeration backends populate
different key sets. -/
structure ProcRecord where
  pid : Int
  name : Option String
  username : Option String
  exe : Option String
  cwd : Option String
  create_time : Option ℚ
  memory_kb : Option Int
  cpu_percent : Option ℚ
  status : Option String
  num_threads : Option Int
deriving DecidableEq

/-- The cache's ordered mapping pid ↦ record (`OrderedDict`), as an
insertion-ordered association list with unique keys. -/
abbrev CacheMap := List (Int × ProcRecord)

/-- Dictionary lookup `m[k]` (`None` when the key is absent). -/
def odLookup (m : CacheMap) (k : Int) : Option ProcRecord :=
  (m.find? (fun kv => kv.1 == k)).map Prod.snd

/-- Dictionary assignment `m[k] = v`: an existing key keeps its position
and gets the new value; a new key is appended at the end. -/
def odInsert (m : CacheMap) (k : Int) (v : ProcRecord) : CacheMap :=
  if m.any (fun kv => kv.1 == k) then
    m.map (fun kv => if kv.1 == k then (k, v) else kv)
  else m ++ [(k, v)]

/-- State of `ProcessCache`: `_cache`, `max_size`, `_last_update`. -/
structure CacheState where
  cache : CacheMap
  max_size : Nat
  last_update : ℚ
deriving DecidableEq

/-- `ProcessCache.__init__(max_size)`: empty cache, `_last_update = 0`. -/
def ProcessCache.init (max_size : Nat) : CacheState :=
  { cache := [], max_size := max_size, last_update := 0 }

/-- The static-field overwrite of `CacheState.update`: for each field in
`_static_fields = {pid, name, username, exe, cwd, create_time}`, if the
cached record has the field, copy its value onto the observed record
(`if field in cached: proc[field] = cached[field]`). -/
def mergeStatic (cached proc : ProcRecord) : ProcRecord :=
  { proc with
    pid := cached.pid
    name := if cached.name.isSome then cached.name else proc.name
    username := if cached.username.isSome then cached.username else proc.username
    exe := if cached.exe.isSome then cached.exe else proc.exe
    cwd := if cached.cwd.isSome then cached.cwd else proc.cwd
    create_time :=
      if cached.create_time.isSome then cached.create_time else proc.create_time }

/-- The per-record transformation of the `update` loop body: a record
whose pid is in the prior generation, while the staleness window is
open, gets the cached static fields; otherwise it is unchanged. -/
def carryStatic (old : CacheMap) (window : Bool) (proc : ProcRecord) : ProcRecord :=
  match odLookup old proc.pid with
  | some cached => if window then mergeStatic cached proc else proc
  | none => proc

/-- The loop of `CacheState.update`: builds `new_cache` from the input
records in order, breaking out once `len(new_cache) >= max_size`
(checked after each insertion); returns the new cache and the full
result list (records after the break pass through untouched, since
Python returns the input list whose processed dicts were mutated in
place). -/
def updateGo (old : CacheMap) (window : Bool) (max_size : Nat)
    (acc : CacheMap) : List ProcRecord → CacheMap × List ProcRecord
  | [] => (acc, [])
  | proc :: rest =>
    let proc' := carryStatic old window proc
    let acc' := odInsert acc proc.pid proc'
    if max_size ≤ acc'.length then (acc', proc' :: rest)
    else
      let r := updateGo old window max_size acc' rest
      (r.1, proc' :: r.2)

/-- `CacheState.update(processes)` at clock value `now`: the staleness
window is open when `now - _last_update < 2.0`; the new generation
replaces `_cache` and `_last_update` is set to `now`; the (mutated)
input list is returned. -/
def CacheState.update (st : CacheState) (now : ℚ) (processes : List ProcRecord) :
    CacheState × List ProcRecord :=
  let window := decide (now - st.last_update < 2)
  let r := updateGo st.cache window st.max_size [] processes
  ({ cache := r.1, max_size := st.max_size, last_update := now }, r.2)

/-- The pids the cache currently holds, as a set
(`set(self._cache.keys())`). -/
def cachedPids (st : CacheState) : Finset Int :=
  (st.cache.map Prod.fst).toFinset

/-- `ProcessCache.needs_full_update(current_pids)` at clock value `now`:
true when more than 5 pids appeared, more than 5 vanished, or more than
5.0 seconds passed since `_last_update`. -/
def CacheState.needs_full_update (st : CacheState) (current_pids : Finset Int)
    (now : ℚ) : Bool :=
  let new_pids := current_pids \ cachedPids st
  let gone_pids := cachedPids st \ current_pids
  if 5 < new_pids.card ∨ 5 < gone_pids.card then true
  else decide (5 < now - st.last_update)

/-- A record holding only a pid, used to build concrete cache states. -/
def blankRec (pid : Int) : ProcRecord :=
  { pid := pid, name := none, username := none, exe := none, cwd := none
    create_time := none, memory_kb := none, cpu_percent := none
    status := none, num_threads := none }

/-- The decision rule of `needs_full_update`, as a characterization:
true exactly when more than 5 pids appeared, more than 5 vanished, or
strictly more than 5.0 seconds elapsed since the last update. -/
theorem needsFullUpdate_characterization (st : CacheState) (current : Finset Int)
    (now : ℚ) :
    st.needs_full_update current now = true ↔
      5 < (current \ cachedPids st).card ∨
        5 < (cachedPids st \ current).card ∨
        5 < now - st.last_update := by
  unfold CacheState.needs_full_update
  by_cases h : 5 < (current \ cachedPids st).card ∨ 5 < (cachedPids st \ current).card
  · simp [h]
    tauto
  · simp [h]
    push_neg at h
    constructor
    · exact fun hlt => Or.inr (Or.inr hlt)
    · rintro (h1 | h2 | h3)
      · omega
      · omega
      · exact h3

/-- No-churn cache state over pids 1, 2, 3, used for concrete
refresh-policy evaluations. -/
def threePidState : CacheState :=
  CacheState.mk [(1, blankRec 1), (2, blankRec 2), (3, blankRec 3)] 500 0

/-- Counterexample to claim C3: with no churn and an elapsed time of
5.9 s the policy already answers true (5.9 > 5.0), where the claim
asserts it answers false at 5.9 s. -/
theorem needs_full_update_at_59_tenths :
    threePidState.needs_full_update {1, 2, 3} (59/10) = true := by
  unfold threePidState CacheState.needs_full_update cachedPids
  norm_num

/-- Claim C3 (amended): the refresh-policy decision is exactly the
disjunction |appeared| > 5 ∨ |vanished| > 5 ∨ now − lastUpdate > 5.0;
with no churn it returns true at an elapsed time of 6.0 s — and already
at any elapsed time strictly above 5.0 s, 5.9 s included — returns false
at 5.0 s exactly, and with 6 appeared identities it returns true. -/
theorem needs_full_update_policy :
    (∀ (st : CacheState) (current : Finset Int) (now : ℚ),
        st.needs_full_update current now = true ↔
          5 < (current \ cachedPids st).card ∨
            5 < (cachedPids st \ current).card ∨
            5 < now - st.last_update) ∧
      threePidState.needs_full_update {1, 2, 3} 6 = true ∧
      threePidState.needs_full_update {1, 2, 3} 5 = false ∧
      threePidState.needs_full_update {1, 2, 9, 10, 11, 12, 13, 14} 0 = true := by
  refine ⟨needsFullUpdate_characterization, ?_, ?_, ?_⟩ <;>
    · unfold threePidState CacheState.needs_full_update cachedPids
      norm_num
      try decide

/-- Claim C10: from the initial cache state (empty, `_last_update = 0`),
`needs_full_update` answers true for every current pid set as soon as
the clock exceeds 5.0: the first polling decision is a full refresh. -/
theorem needs_full_update_initial (m : Nat) (current : Finset Int) (now : ℚ)
    (h : 5 < now) : (ProcessCache.init m).needs_full_update current now = true := by
  unfold ProcessCache.init CacheState.needs_full_update
  by_cases hc : 5 < (current \ cachedPids (CacheState.mk [] m 0)).card ∨
      5 < (cachedPids (CacheState.mk [] m 0) \ current).card
  · simp [hc]
  · simp [hc]
    simpa using h

/-- Witness for C10: at clock 6 with no current pids. -/
theorem needs_full_update_initial_witness :
    (ProcessCache.init 500).needs_full_update ∅ 6 = true :=
  needs_full_update_initial 500 ∅ 6 (by norm_num)

/-- A record holding a pid and a name, as the staleness examples use. -/
def mkNamed (pid : Int) (name : String) : ProcRecord :=
  { blankRec pid with name := some name }

/-- Inserting into the ordered mapping grows it by at most one entry. -/
theorem odInsert_length_le (m : CacheMap) (k : Int) (v : ProcRecord) :
    (odInsert m k v).length ≤ m.length + 1 := by
  unfold odInsert
  split
  · simp
  · simp

/-- The update loop never grows the new generation past `max_size` once
it starts below it: the length check after each insertion breaks out in
time. -/
theorem updateGo_length_le (old : CacheMap) (w : Bool) (m : Nat)
    (procs : List ProcRecord) : ∀ acc : CacheMap, acc.length < m →
    (updateGo old w m acc procs).1.length ≤ m := by
  induction procs with
  | nil => intro acc h; exact le_of_lt h
  | cons p rest ih =>
    intro acc h
    have hlen := odInsert_length_le acc p.pid (carryStatic old w p)
    unfold updateGo
    by_cases hm : m ≤ (odInsert acc p.pid (carryStatic old w p)).length
    · simp only [hm, if_true]
      omega
    · simp only [hm, if_false]
      exact ih _ (by omega)

/-- Claim C1 (amended): for every configured capacity of at least 1,
every prior cache state and every input sequence, the new generation
`update` installs holds at most `max_size` entries.  (At capacity 0 the
cap is checked only after the first insertion, so one entry slips in;
see the counterexample.) -/
theorem update_capacity_bound (st : CacheState) (now : ℚ)
    (procs : List ProcRecord) (h : 1 ≤ st.max_size) :
    ((st.update now procs).1).cache.length ≤ st.max_size := by
  unfold CacheState.update
  exact updateGo_length_le _ _ _ procs [] (by simpa using h)

/-- Witness for C1 (amended): capacity 3 with five records stays within
the cap. -/
theorem update_capacity_bound_witness :
    1 ≤ (ProcessCache.init 3).max_size ∧
      (((ProcessCache.init 3).update 1
          [blankRec 1, blankRec 2, blankRec 3, blankRec 4, blankRec 5]).1).cache.length ≤
        (ProcessCache.init 3).max_size :=
  ⟨by decide, update_capacity_bound (ProcessCache.init 3) 1 _ (by decide)⟩

/-- Counterexample to claim C1 as stated: with configured capacity 0 and
one observed record the new generation holds one entry, because the
code checks `len(new_cache) >= max_size` only after inserting. -/
theorem update_capacity_zero_overflow :
    ¬ ((((ProcessCache.init 0).update 1 [blankRec 1]).1).cache.length ≤
        (ProcessCache.init 0).max_size) := by
  norm_num [ProcessCache.init, CacheState.update, updateGo, carryStatic,
    odLookup, odInsert]

/-- While the whole input still fits under the capacity, the update loop
processes every record in order and never breaks out, so the returned
sequence is the pointwise static-carryover image of the input. -/
theorem updateGo_snd_of_fits (old : CacheMap) (w : Bool) (m : Nat)
    (procs : List ProcRecord) : ∀ acc : CacheMap,
    acc.length + procs.length ≤ m →
    (updateGo old w m acc procs).2 = procs.map (carryStatic old w) := by
  induction procs with
  | nil => intro acc _; rfl
  | cons p rest ih =>
    intro acc h
    have hlen := odInsert_length_le acc p.pid (carryStatic old w p)
    unfold updateGo
    by_cases hm : m ≤ (odInsert acc p.pid (carryStatic old w p)).length
    · have hrest : rest = [] := by
        cases rest with
        | nil => rfl
        | cons q t => simp at h; omega
      subst hrest
      simp [hm]
    · simp only [hm, if_false]
      simp only [List.map_cons, List.cons.injEq, true_and]
      exact ih _ (by simp at h ⊢; omega)

/-- Claim C2 (amended): whenever the observed sequence fits within the
configured capacity (so the loop reaches every record), each returned
record carries the prior generation's static attributes exactly when
its identity is in the prior generation and the elapsed time since the
last generation is strictly below 2.0 s; otherwise the freshly observed
values are kept.  Records past the capacity cutoff are returned with
their fresh values unconditionally; see the counterexample. -/
theorem update_carryover (st : CacheState) (now : ℚ) (procs : List ProcRecord)
    (h : procs.length ≤ st.max_size) :
    (st.update now procs).2 =
      procs.map (fun p =>
        match odLookup st.cache p.pid with
        | some cached =>
            if now - st.last_update < 2 then mergeStatic cached p else p
        | none => p) := by
  unfold CacheState.update
  rw [updateGo_snd_of_fits st.cache _ st.max_size procs [] (by simpa using h)]
  refine List.map_congr_left fun p _ => ?_
  unfold carryStatic
  rcases odLookup st.cache p.pid with _ | cached
  · rfl
  · by_cases hw : now - st.last_update < 2
    · simp [hw]
    · simp [hw]

/-- Witness for C2 (amended): the spec's own staleness example — a
cached name "alpha" for identity 42, re-observed as "beta" 1.0 s after
the last generation, is returned as "alpha". -/
theorem update_carryover_witness :
    ((CacheState.mk [(42, mkNamed 42 "alpha")] 500 10).update 11
        [mkNamed 42 "beta"]).2 = [mkNamed 42 "alpha"] := by
  rw [update_carryover (CacheState.mk [(42, mkNamed 42 "alpha")] 500 10) 11
    [mkNamed 42 "beta"] (by norm_num)]
  norm_num [odLookup, mergeStatic, mkNamed, blankRec]

/-- Well-formedness of the ordered mapping: every entry's record has the
entry's key as its pid.  `update` only ever inserts `new_cache[pid] =
proc` with `pid = proc['pid']`, so every reachable cache satisfies
this. -/
def cacheWF (m : CacheMap) : Prop := ∀ kv ∈ m, kv.2.pid = kv.1

/-- Static carryover from a well-formed cache never changes a record's
pid (the loop overwrites `proc['pid']` with `cached['pid']`, which
equals the lookup key). -/
theorem carryStatic_pid (old : CacheMap) (w : Bool) (p : ProcRecord)
    (hwf : cacheWF old) : (carryStatic old w p).pid = p.pid := by
  unfold carryStatic odLookup
  cases hf : old.find? (fun kv => kv.1 == p.pid) with
  | none => rfl
  | some kv =>
    have h1 : kv.1 = p.pid := by
      have := List.find?_some hf
      simpa using this
    have h2 : kv.2.pid = kv.1 := hwf kv (List.mem_of_find?_eq_some hf)
    cases w
    · rfl
    · show (mergeStatic kv.2 p).pid = p.pid
      simp only [mergeStatic]
      exact h2.trans h1

/-- Inserting a key that is not yet in the mapping appends the entry at
the end. -/
theorem odInsert_fresh (m : CacheMap) (k : Int) (v : ProcRecord)
    (h : k ∉ m.map Prod.fst) : odInsert m k v = m ++ [(k, v)] := by
  have hany : m.any (fun kv => kv.1 == k) = false := by
    rw [List.any_eq_false]
    intro kv hkv hbeq
    rw [beq_iff_eq] at hbeq
    exact h (hbeq ▸ List.mem_map_of_mem Prod.fst hkv)
  unfold odInsert
  simp [hany]

/-- The update loop over pairwise-distinct pids: the new generation's
keys are exactly the first `max_size` input pids in order, and the
returned sequence keeps every input pid in order. -/
theorem updateGo_keys (old : CacheMap) (w : Bool) (m : Nat) (hwf : cacheWF old) :
    ∀ (procs : List ProcRecord) (acc : CacheMap), acc.length < m →
    ((acc.map Prod.fst) ++ procs.map ProcRecord.pid).Nodup →
    (updateGo old w m acc procs).1.map Prod.fst =
        ((acc.map Prod.fst) ++ procs.map ProcRecord.pid).take m ∧
      (updateGo old w m acc procs).2.map ProcRecord.pid =
        procs.map ProcRecord.pid := by
  intro procs
  induction procs with
  | nil =>
    intro acc hlt _
    refine ⟨?_, by simp [updateGo]⟩
    simp only [updateGo, List.map_nil, List.append_nil]
    rw [List.take_of_length_le]
    simpa using le_of_lt hlt
  | cons p rest ih =>
    intro acc hlt hnd
    have hpid := carryStatic_pid old w p hwf
    have hfresh : p.pid ∉ acc.map Prod.fst := by
      rw [List.nodup_append] at hnd
      intro hmem
      exact hnd.2.2 hmem (by simp)
    have hins : odInsert acc p.pid (carryStatic old w p) =
        acc ++ [(p.pid, carryStatic old w p)] := odInsert_fresh _ _ _ hfresh
    unfold updateGo
    simp only [hins]
    by_cases hm : m ≤ (acc ++ [(p.pid, carryStatic old w p)]).length
    · have hlen : m = acc.length + 1 := by simp at hm; omega
      simp only [hm, if_true]
      constructor
      · rw [hlen, List.take_append_eq_append_take]
        simp [hpid]
      · simp [hpid]
    · simp only [hm, if_false]
      have harr : ((acc ++ [(p.pid, carryStatic old w p)]).map Prod.fst) ++
          rest.map ProcRecord.pid =
          (acc.map Prod.fst) ++ (p :: rest).map ProcRecord.pid := by
        simp [hpid]
      have hih := ih (acc ++ [(p.pid, carryStatic old w p)])
        (by simp at hm ⊢; omega) (by rw [harr]; exact hnd)
      refine ⟨?_, ?_⟩
      · rw [hih.1, harr]
      · simp only [List.map_cons, hpid, List.cons.injEq, true_and]
        exact hih.2

/-- Claim C4 (amended): for a configured capacity of at least 1, a
well-formed prior generation and pairwise-distinct observed pids,
`update` returns the whole observed sequence with its input order
preserved even past the capacity, while the new generation's keys are
exactly the first `max_size` observed pids; every record beyond the
capacity is absent from the cache.  (At capacity 0 one record is still
stored; see the counterexample.) -/
theorem update_truncates_at_capacity (st : CacheState) (now : ℚ)
    (procs : List ProcRecord) (h1 : 1 ≤ st.max_size) (hwf : cacheWF st.cache)
    (hnd : (procs.map ProcRecord.pid).Nodup) :
    (st.update now procs).2.map ProcRecord.pid = procs.map ProcRecord.pid ∧
      ((st.update now procs).1).cache.map Prod.fst =
        (procs.map ProcRecord.pid).take st.max_size ∧
      ∀ p ∈ procs.drop st.max_size,
        p.pid ∉ ((st.update now procs).1).cache.map Prod.fst := by
  have hkeys := updateGo_keys st.cache (decide (now - st.last_update < 2))
    st.max_size hwf procs [] (by simp; omega) (by simpa using hnd)
  simp only [List.map_nil, List.nil_append] at hkeys
  refine ⟨?_, ?_, ?_⟩
  · exact hkeys.2
  · exact hkeys.1
  · intro p hp hmem
    have hmem2 : p.pid ∈ (updateGo st.cache (decide (now - st.last_update < 2))
        st.max_size [] procs).1.map Prod.fst := hmem
    rw [hkeys.1] at hmem2
    have hsplit : (procs.map ProcRecord.pid).take st.max_size ++
        (procs.map ProcRecord.pid).drop st.max_size = procs.map ProcRecord.pid :=
      List.take_append_drop _ _
    have hnd2 := hnd
    rw [← hsplit, List.nodup_append] at hnd2
    exact hnd2.2.2 hmem2 (by rw [← List.map_drop]; exact List.mem_map_of_mem _ hp)

/-- Witness for C4 (amended): capacity 3 with five distinct records —
all five pids are returned in order, the cache keys are the first
three, and pids 4 and 5 are not cached. -/
theorem update_truncates_at_capacity_witness :
    ((ProcessCache.init 3).update 1
          [blankRec 1, blankRec 2, blankRec 3, blankRec 4, blankRec 5]).2.map
        ProcRecord.pid =
        [blankRec 1, blankRec 2, blankRec 3, blankRec 4,
          blankRec 5].map ProcRecord.pid ∧
      (((ProcessCache.init 3).update 1
            [blankRec 1, blankRec 2, blankRec 3, blankRec 4,
              blankRec 5]).1).cache.map Prod.fst =
        ([blankRec 1, blankRec 2, blankRec 3, blankRec 4,
            blankRec 5].map ProcRecord.pid).take (ProcessCache.init 3).max_size ∧
      ∀ p ∈ [blankRec 1, blankRec 2, blankRec 3, blankRec 4,
          blankRec 5].drop (ProcessCache.init 3).max_size,
        p.pid ∉ (((ProcessCache.init 3).update 1
            [blankRec 1, blankRec 2, blankRec 3, blankRec 4,
              blankRec 5]).1).cache.map Prod.fst :=
  update_truncates_at_capacity (ProcessCache.init 3) 1 _ (by decide)
    (by intro kv hkv; simp [ProcessCache.init] at hkv) (by decide)

/-- Counterexample to claim C4 as stated: with configured capacity 0,
the new generation is not empty — the first observed record is stored
before the capacity check runs, so the cache does not hold "only the
first records up to the configured capacity". -/
theorem update_capacity_zero_stores :
    (((ProcessCache.init 0).update 1 [blankRec 7]).1).cache = [(7, blankRec 7)] ∧
      (ProcessCache.init 0).max_size = 0 := by
  constructor
  · norm_num [ProcessCache.init, CacheState.update, updateGo, carryStatic,
      odLookup, odInsert, blankRec]
  · rfl

/-- Counterexample to claim C2 as stated: capacity 1, the prior
generation holds identity 2 with name "alpha", and 1.0 s elapsed — yet
the re-observed record for identity 2, arriving second, is returned
with its fresh name "beta": the loop broke at the capacity before
reaching it, so no carryover happened despite the cache hit being
inside the staleness window. -/
theorem update_carryover_cutoff_cex :
    odLookup ((((ProcessCache.init 1).update 10 [mkNamed 2 "alpha"]).1).cache) 2 =
        some (mkNamed 2 "alpha") ∧
      (11 : ℚ) - (((ProcessCache.init 1).update 10 [mkNamed 2 "alpha"]).1).last_update < 2 ∧
      ((((ProcessCache.init 1).update 10 [mkNamed 2 "alpha"]).1).update 11
          [blankRec 1, mkNamed 2 "beta"]).2.map ProcRecord.name =
        [none, some "beta"] := by
  refine ⟨?_, by norm_num [ProcessCache.init, CacheState.update, updateGo,
    carryStatic, odLookup, odInsert], ?_⟩ <;>
    norm_num [ProcessCache.init, CacheState.update, updateGo, carryStatic,
      odLookup, odInsert, mkNamed, blankRec]

/-- One entry of the bulk backend's decoded JSON payload
(`GetProcessesInfo`): pid, name, memory in kB. -/
structure BulkProc where
  pid : Int
  name : String
  memory_kb : Int
deriving DecidableEq

/-- The introspection backend's per-pid answer used to enrich a bulk
entry (`cpu_percent()`, `status()`, `username()`); `none` models
`NoSuchProcess`/`AccessDenied`. -/
structure EnrichSample where
  cpu_percent : ℚ
  status : String
  username : String
deriving DecidableEq

/-- One `psutil.process_iter` entry on the fallback enumeration path,
with the attrs the source requests. -/
structure IterProc where
  pid : Int
  name : String
  rss : Nat
  cpu_percent : ℚ
  status : String
  username : Option String
deriving DecidableEq

/-- The introspection backend's per-pid answer on a quick refresh
(`memory_info().rss`, `cpu_percent()`, `status()`); `none` models
`NoSuchProcess`/`AccessDenied`. -/
structure DynSample where
  rss : Nat
  cpu_percent : ℚ
  status : String
deriving DecidableEq

/-- The outside world one `get_processes`/`kill_process` call observes:
what the bulk backend returns (`[]` models both a failed call and an
empty payload; a `none` entry models a malformed entry the per-record
`try` skips), the introspection backend's per-pid answers, the
enumeration it yields, and the clock. -/
structure Env where
  dllResponse : List (Option BulkProc)
  enrich : Int → Option EnrichSample
  iter : List (Option IterProc)
  dyn : Int → Option DynSample
  now : ℚ

/-- Python's `s or 'N/A'` for a string: the empty string is falsy. -/
def orNA (s : String) : String := if s = "" then "N/A" else s

/-- Python's `v or 'N/A'` for an optional string: `None` and `""` are
falsy. -/
def optOrNA : Option String → String
  | none => "N/A"
  | some s => orNA s

/-- One bulk-path record: built from the dll entry with the documented
defaults `cpu_percent 0.0`, `status 'running'`, `username 'N/A'`, then
enriched from the introspection backend when its per-pid query
succeeds; on failure the defaults stay. -/
def buildDllOne (enrich : Int → Option EnrichSample) (b : BulkProc) : ProcRecord :=
  let base : ProcRecord :=
    { pid := b.pid, name := some b.name, username := some "N/A", exe := none
      cwd := none, create_time := none, memory_kb := some b.memory_kb
      cpu_percent := some 0, status := some "running", num_threads := none }
  match enrich b.pid with
  | some s =>
    { base with
      cpu_percent := some s.cpu_percent, status := some s.status,
      username := some (orNA s.username) }
  | none => base

/-- The bulk-path loop over the decoded payload: malformed entries are
skipped by the per-record `try`, the rest are built in order. -/
def buildDllProcs (enrich : Int → Option EnrichSample)
    (raw : List (Option BulkProc)) : List ProcRecord :=
  raw.filterMap (fun o => o.map (buildDllOne enrich))

/-- One fallback-path record from a `psutil.process_iter` entry:
`memory_kb = rss // 1024`, `username or 'N/A'`; only the six requested
attrs are populated. -/
def iterToRecord (ip : IterProc) : ProcRecord :=
  { pid := ip.pid, name := some ip.name, username := some (optOrNA ip.username)
    exe := none, cwd := none, create_time := none
    memory_kb := some ((ip.rss / 1024 : Nat) : Int)
    cpu_percent := some ip.cpu_percent, status := some ip.status
    num_threads := none }

/-- The fallback enumeration loop: entries whose attr reads raised
`NoSuchProcess`/`AccessDenied` are skipped, the rest are appended in
order. -/
def psutilEnumerate (iter : List (Option IterProc)) : List ProcRecord :=
  iter.filterMap (fun o => o.map iterToRecord)

/-- One step of `_refresh_dynamic_data`: on a successful per-pid query
rewrite `memory_kb`, `cpu_percent` and `status`; on
`NoSuchProcess`/`AccessDenied` leave the record untouched. -/
def refreshOne (dyn : Int → Option DynSample) (p : ProcRecord) : ProcRecord :=
  match dyn p.pid with
  | some d =>
    { p with
      memory_kb := some ((d.rss / 1024 : Nat) : Int),
      cpu_percent := some d.cpu_percent, status := some d.status }
  | none => p

/-- `ProcessManager._refresh_dynamic_data`, over the held record list. -/
def refreshDynamic (dyn : Int → Option DynSample)
    (procs : List ProcRecord) : List ProcRecord :=
  procs.map (refreshOne dyn)

/-- State of a `ProcessManager`: whether the dll loaded (`self.dll` is
not `None`), the held record list, the cache, and `last_full_update`. -/
structure ManagerState where
  dll : Bool
  processes : List ProcRecord
  cache : CacheState
  last_full_update : ℚ
deriving DecidableEq

/-- `ProcessManager.__init__`: empty record list, a default cache
(capacity 500), `last_full_update = 0`; `dllLoaded` is false when
loading `ProcessInfo.dll` raised. -/
def ProcessManager.init (dllLoaded : Bool) : ManagerState :=
  { dll := dllLoaded, processes := [], cache := ProcessCache.init 500
    last_full_update := 0 }

/-- What one `get_processes` call produces: the new manager state, the
returned list, and whether the bulk backend was queried during the
call (`GetProcessesInfo` invoked). -/
structure StepResult where
  state : ManagerState
  ret : List ProcRecord
  queriedDll : Bool
deriving DecidableEq

/-- The tail of `get_processes` after the bulk path was skipped or
yielded nothing: a quick refresh when `full_update` is false, else the
fallback enumeration through `psutil.process_iter` followed by
`cache.update`. -/
def get_processes_rest (env : Env) (full_update : Bool) (st : ManagerState)
    (queried : Bool) : StepResult :=
  if full_update = false then
    { state := { st with processes := refreshDynamic env.dyn st.processes },
      ret := refreshDynamic env.dyn st.processes, queriedDll := queried }
  else
    let r := st.cache.update env.now (psutilEnumerate env.iter)
    { state := { st with
        processes := r.2, cache := r.1, last_full_update := env.now },
      ret := r.2, queriedDll := queried }

/-- `ProcessManager.get_processes(full_update)`: when the dll is loaded
and a full update was asked, query the bulk backend; a non-empty
payload takes the bulk path (build, enrich, `cache.update`), an empty
one falls through.  Note `self.dll` is never cleared here: a response
failure does not disable the bulk backend. -/
def get_processes (env : Env) (full_update : Bool) (st : ManagerState) :
    StepResult :=
  if st.dll && full_update then
    if env.dllResponse = [] then get_processes_rest env full_update st true
    else
      let r := st.cache.update env.now (buildDllProcs env.enrich env.dllResponse)
      { state := { st with
          processes := r.2, cache := r.1, last_full_update := env.now },
        ret := r.2, queriedDll := true }
  else get_processes_rest env full_update st false

/-- A run of successive `get_processes` calls, each with its own
environment and `full_update` flag, threading the manager state. -/
def runCalls (st : ManagerState) : List (Env × Bool) → List StepResult
  | [] => []
  | (env, fu) :: rest =>
    get_processes env fu st :: runCalls (get_processes env fu st).state rest

/-- What one `kill_process(pid)` call produces: the returned Bool, the
error dialog text if one was shown, the (unchanged) manager state, and
the termination requests issued. -/
structure KillResult where
  ok : Bool
  errorShown : Option String
  state : ManagerState
  requests : List Int
deriving DecidableEq

/-- `ProcessManager.kill_process(pid)`: one termination attempt against
`pid` through the introspection backend (`psutil.Process(pid);
process.terminate()`, both folded into one fallible request); true on
success, false with an error dialog naming the cause on any failure;
the manager's state is untouched either way. -/
def kill_process (term : Int → Except String Unit) (pid : Int)
    (st : ManagerState) : KillResult :=
  match term pid with
  | Except.ok _ => { ok := true, errorShown := none, state := st, requests := [pid] }
  | Except.error e =>
    { ok := false,
      errorShown := some ("Не удалось завершить процесс: " ++ e),
      state := st, requests := [pid] }

/-- A quick-refresh step leaves every non-dynamic field of a record
unchanged: only `memory_kb`, `cpu_percent` and `status` are rewritten. -/
theorem refreshOne_frame (dyn : Int → Option DynSample) (p : ProcRecord) :
    (refreshOne dyn p).pid = p.pid ∧ (refreshOne dyn p).name = p.name ∧
      (refreshOne dyn p).username = p.username ∧
      (refreshOne dyn p).exe = p.exe ∧ (refreshOne dyn p).cwd = p.cwd ∧
      (refreshOne dyn p).create_time = p.create_time ∧
      (refreshOne dyn p).num_threads = p.num_threads := by
  unfold refreshOne
  cases dyn p.pid <;> simp

/-- Claim C7: a quick refresh (`get_processes` with `full_update`
false) preserves list membership — same length, same pids in order —
and every record's static fields (name, username, exe, cwd,
create_time) as well as `num_threads`; it neither adds nor removes
records, does not touch the cache, and never queries the bulk
backend: only `memory_kb`, `cpu_percent` and `status` of already-held
records are rewritten. -/
theorem quick_refresh_frame :
    ∀ (env : Env) (st : ManagerState),
      (get_processes env false st).ret =
          (get_processes env false st).state.processes ∧
        (get_processes env false st).ret.length = st.processes.length ∧
        (get_processes env false st).ret.map ProcRecord.pid =
          st.processes.map ProcRecord.pid ∧
        (get_processes env false st).ret.map ProcRecord.name =
          st.processes.map ProcRecord.name ∧
        (get_processes env false st).ret.map ProcRecord.username =
          st.processes.map ProcRecord.username ∧
        (get_processes env false st).ret.map ProcRecord.exe =
          st.processes.map ProcRecord.exe ∧
        (get_processes env false st).ret.map ProcRecord.cwd =
          st.processes.map ProcRecord.cwd ∧
        (get_processes env false st).ret.map ProcRecord.create_time =
          st.processes.map ProcRecord.create_time ∧
        (get_processes env false st).ret.map ProcRecord.num_threads =
          st.processes.map ProcRecord.num_threads ∧
        (get_processes env false st).state.cache = st.cache ∧
        (get_processes env false st).state.dll = st.dll ∧
        (get_processes env false st).queriedDll = false := by
  intro env st
  have hstep : get_processes env false st =
      { state := { st with processes := refreshDynamic env.dyn st.processes },
        ret := refreshDynamic env.dyn st.processes, queriedDll := false } := by
    unfold get_processes get_processes_rest
    simp
  rw [hstep]
  unfold refreshDynamic
  refine ⟨rfl, by simp, ?_, ?_, ?_, ?_, ?_, ?_, ?_, rfl, rfl, rfl⟩ <;>
    · rw [List.map_map]
      refine List.map_congr_left fun p _ => ?_
      have h := refreshOne_frame env.dyn p
      simp only [Function.comp_apply]
      tauto

/-- Claim C8: per-record failures are swallowed.  On the bulk-backed
full-refresh path, a bulk entry whose per-pid introspection query
fails keeps the documented defaults (`cpu_percent 0.0`,
`status 'running'`, `username 'N/A'`) and every other entry is still
processed; on a quick refresh, a record whose per-pid query fails is
left entirely unchanged and iteration continues over the rest. -/
theorem per_record_failures_swallowed :
    (∀ (enrich : Int → Option EnrichSample) (l₁ l₂ : List (Option BulkProc))
        (b : BulkProc), enrich b.pid = none →
        buildDllProcs enrich (l₁ ++ some b :: l₂) =
          buildDllProcs enrich l₁ ++
            { pid := b.pid, name := some b.name, username := some "N/A",
              exe := none, cwd := none, create_time := none,
              memory_kb := some b.memory_kb, cpu_percent := some 0,
              status := some "running", num_threads := none } ::
            buildDllProcs enrich l₂) ∧
      ∀ (dyn : Int → Option DynSample) (l₁ l₂ : List ProcRecord)
        (p : ProcRecord), dyn p.pid = none →
        refreshDynamic dyn (l₁ ++ p :: l₂) =
          refreshDynamic dyn l₁ ++ p :: refreshDynamic dyn l₂ := by
  constructor
  · intro enrich l₁ l₂ b hb
    unfold buildDllProcs
    rw [List.filterMap_append]
    simp [buildDllOne, hb]
  · intro dyn l₁ l₂ p hp
    unfold refreshDynamic
    rw [List.map_append]
    simp [refreshOne, hp]

/-- Claim C9: `kill_process` issues exactly one termination request
against the given pid, returns true exactly when that request
succeeds, shows an error dialog carrying the underlying cause on
failure, and leaves the manager's state (record list and cache)
unchanged; there is no retry and no escalation. -/
theorem kill_process_contract :
    ∀ (term : Int → Except String Unit) (pid : Int) (st : ManagerState),
      (kill_process term pid st).requests = [pid] ∧
        (kill_process term pid st).state = st ∧
        ((kill_process term pid st).ok = true ↔ term pid = Except.ok ()) ∧
        ∀ e, term pid = Except.error e →
          (kill_process term pid st).errorShown =
            some ("Не удалось завершить процесс: " ++ e) := by
  intro term pid st
  unfold kill_process
  cases hterm : term pid with
  | ok u =>
    cases u
    simp [hterm]
  | error e =>
    simp [hterm]

/-- When the prior generation is empty, the update loop changes no
record, whatever the window and capacity: the returned sequence is the
input sequence. -/
theorem updateGo_snd_nil_old (w : Bool) (m : Nat) :
    ∀ (procs : List ProcRecord) (acc : CacheMap),
      (updateGo [] w m acc procs).2 = procs := by
  intro procs
  induction procs with
  | nil => intro acc; rfl
  | cons p rest ih =>
    intro acc
    have hc : carryStatic [] w p = p := rfl
    unfold updateGo
    simp only [hc]
    split <;> simp [ih]

/-- Claim C6 (amended): when the bulk backend is unavailable
(`self.dll` is `None`) or returned no data, a full refresh runs the
introspection enumeration alone, and — over an empty prior cache
generation, so no stale carryover interferes — every successfully
enumerated record carries identity, display name, owning user,
resident memory, CPU utilization and run status, read in one pass; the
executable path, working directory, creation timestamp and thread
count are NOT populated on this path. -/
theorem fallback_enumeration (env : Env) (st : ManagerState)
    (h : st.dll = false ∨ env.dllResponse = []) (hc : st.cache.cache = []) :
    (get_processes env true st).ret = psutilEnumerate env.iter ∧
      ∀ r ∈ (get_processes env true st).ret,
        ∃ ip, some ip ∈ env.iter ∧ r.pid = ip.pid ∧ r.name = some ip.name ∧
          r.username = some (optOrNA ip.username) ∧
          r.memory_kb = some ((ip.rss / 1024 : Nat) : Int) ∧
          r.cpu_percent = some ip.cpu_percent ∧ r.status = some ip.status ∧
          r.exe = none ∧ r.cwd = none ∧ r.create_time = none ∧
          r.num_threads = none := by
  have hsnd : ∀ procs, (st.cache.update env.now procs).2 = procs := by
    intro procs
    show (updateGo st.cache.cache (decide (env.now - st.cache.last_update < 2))
        st.cache.max_size [] procs).2 = procs
    rw [hc]
    exact updateGo_snd_nil_old _ _ procs []
  have hret : (get_processes env true st).ret = psutilEnumerate env.iter := by
    rcases h with hdll | hresp
    · unfold get_processes
      rw [hdll]
      simp only [Bool.false_and, Bool.false_eq_true, if_false]
      unfold get_processes_rest
      simp only [Bool.true_eq_false, if_false]
      exact hsnd _
    · unfold get_processes
      by_cases hd : st.dll && true
      · simp only [hd, if_true, hresp, if_pos rfl]
        unfold get_processes_rest
        simp only [Bool.true_eq_false, if_false]
        exact hsnd _
      · simp only [hd, Bool.false_eq_true, if_false]
        unfold get_processes_rest
        simp only [Bool.true_eq_false, if_false]
        exact hsnd _
  refine ⟨hret, ?_⟩
  intro r hr
  rw [hret] at hr
  unfold psutilEnumerate at hr
  rw [List.mem_filterMap] at hr
  obtain ⟨o, ho, hmap⟩ := hr
  cases o with
  | none => simp at hmap
  | some ip =>
    simp only [Option.map_some'] at hmap
    rw [Option.some_inj] at hmap
    refine ⟨ip, ho, ?_⟩
    rw [← hmap]
    simp [iterToRecord]

/-- A fallback enumeration entry with every attr populated, for the
concrete C6 runs. -/
def ipFoo : IterProc :=
  { pid := 7, name := "foo", rss := 4096, cpu_percent := 3, status := "sleeping",
    username := some "root" }

/-- An environment whose bulk backend yields nothing and whose
introspection enumeration yields exactly `ipFoo`. -/
def envIter : Env :=
  { dllResponse := [], enrich := fun _ => none, iter := [some ipFoo],
    dyn := fun _ => none, now := 10 }

/-- Witness for C6 (amended): a freshly initialized manager without the
dll, refreshed fully in `envIter`. -/
theorem fallback_enumeration_witness :
    (get_processes envIter true (ProcessManager.init false)).ret =
        psutilEnumerate envIter.iter ∧
      ∀ r ∈ (get_processes envIter true (ProcessManager.init false)).ret,
        ∃ ip, some ip ∈ envIter.iter ∧ r.pid = ip.pid ∧ r.name = some ip.name ∧
          r.username = some (optOrNA ip.username) ∧
          r.memory_kb = some ((ip.rss / 1024 : Nat) : Int) ∧
          r.cpu_percent = some ip.cpu_percent ∧ r.status = some ip.status ∧
          r.exe = none ∧ r.cwd = none ∧ r.create_time = none ∧
          r.num_threads = none :=
  fallback_enumeration envIter (ProcessManager.init false) (Or.inl rfl) rfl

/-- Counterexample to claim C6 as stated: the record the fallback path
returns for process 7 is successfully enumerated (pid and name
present) yet carries no executable path, no working directory, no
creation timestamp and no thread count — the fallback enumeration
requests only pid, name, memory, cpu, status and username. -/
theorem fallback_missing_fields :
    (get_processes envIter true (ProcessManager.init false)).ret.map
        ProcRecord.pid = [7] ∧
      (get_processes envIter true (ProcessManager.init false)).ret.map
        ProcRecord.name = [some "foo"] ∧
      (get_processes envIter true (ProcessManager.init false)).ret.map
        ProcRecord.exe = [none] ∧
      (get_processes envIter true (ProcessManager.init false)).ret.map
        ProcRecord.cwd = [none] ∧
      (get_processes envIter true (ProcessManager.init false)).ret.map
        ProcRecord.create_time = [none] ∧
      (get_processes envIter true (ProcessManager.init false)).ret.map
        ProcRecord.num_threads = [none] := by
  norm_num [get_processes, get_processes_rest, ProcessManager.init,
    ProcessCache.init, CacheState.update, updateGo, carryStatic, odLookup,
    odInsert, psutilEnumerate, iterToRecord, envIter, ipFoo, optOrNA, orNA]

/-- `get_processes` never changes whether the dll is loaded:
`self.dll` is written only in `__init__`. -/
theorem get_processes_dll_invariant (env : Env) (fu : Bool) (st : ManagerState) :
    (get_processes env fu st).state.dll = st.dll := by
  unfold get_processes get_processes_rest
  split
  · split
    · split <;> rfl
    · rfl
  · split <;> rfl

/-- With the dll not loaded, no call queries the bulk backend. -/
theorem get_processes_no_dll_query (env : Env) (fu : Bool) (st : ManagerState)
    (h : st.dll = false) : (get_processes env fu st).queriedDll = false := by
  unfold get_processes
  rw [h]
  simp only [Bool.false_and, Bool.false_eq_true, if_false]
  unfold get_processes_rest
  split <;> rfl

/-- Claim C5 (amended): `get_processes` never changes whether the bulk
backend is considered loaded, and once the dll failed to initialize
(`self.dll` is `None`) every later call — over any run of calls with
any environments — runs the introspection-only path and never queries
the bulk backend.  A mere response failure does not disable the bulk
backend; see the counterexample. -/
theorem dll_fallback_permanence :
    (∀ (env : Env) (fu : Bool) (st : ManagerState),
        (get_processes env fu st).state.dll = st.dll) ∧
      ∀ (calls : List (Env × Bool)) (st : ManagerState), st.dll = false →
        ∀ r ∈ runCalls st calls, r.queriedDll = false ∧ r.state.dll = false := by
  refine ⟨get_processes_dll_invariant, ?_⟩
  intro calls
  induction calls with
  | nil =>
    intro st h r hr
    simp [runCalls] at hr
  | cons c rest ih =>
    obtain ⟨env, fu⟩ := c
    intro st h r hr
    simp only [runCalls, List.mem_cons] at hr
    rcases hr with rfl | hr
    · exact ⟨get_processes_no_dll_query env fu st h,
        (get_processes_dll_invariant env fu st).trans h⟩
    · exact ih _ ((get_processes_dll_invariant env fu st).trans h) r hr

/-- An environment whose bulk backend fails to respond (empty payload)
and whose introspection enumeration is empty. -/
def envNoBulk : Env :=
  { dllResponse := [], enrich := fun _ => none, iter := [], dyn := fun _ => none,
    now := 10 }

/-- Counterexample to claim C5 as stated: the bulk backend is loaded
but fails to respond on the first full refresh (empty payload), and
the very next full refresh queries the bulk backend again — the code
never clears `self.dll` after a response failure, so there is no
permanent fallback in that case. -/
theorem dll_requeried_after_failure :
    envNoBulk.dllResponse = [] ∧
      (runCalls (ProcessManager.init true)
          [(envNoBulk, true), (envNoBulk, true)]).map StepResult.queriedDll =
        [true, true] := by
  refine ⟨rfl, ?_⟩
  norm_num [runCalls, get_processes, get_processes_rest, ProcessManager.init,
    ProcessCache.init, CacheState.update, updateGo, psutilEnumerate,
    refreshDynamic, envNoBulk]
